import Mathlib

/-!
Verification of the `pull` subsystem of carvel-imgpkg (`pkg/imgpkg/cmd/pull.go`
together with the tar-archiver file of the `image` package embedded in the same
source bundle).

The development shallowly embeds the two Go files:

* the deterministic tar archiver (`TarImage`: `createTarball`, `addDirToTar`,
  `addFileToTar`, `isExcluded`, `asFileImage`), modelled over an explicit
  filesystem-tree datatype;
* the pull command (`PullOptions.Run`, `getRefFromFlags`, `rewriteImageLock`
  and the inline bundle/image classifier), modelled as pure functions over the
  command flags plus an oracle `World` describing the outcomes of the external
  registry and filesystem collaborators, returning both a result and the list
  of observable side effects in order.

Modelling conventions:

* Relative paths are represented as lists of path segments (`RelPath`); Go joins
  segments with `/` and real file names contain no `/`, so joining is injective
  and segment lists carry the same information.  The walk root, whose relative
  path is `"."` in Go (`filepath.Rel(path, path)`), is the empty list `[]`.
* Machine integers do not occur: sizes and times are `Nat`.
* Fallible Go code returns `Except`; observable I/O and UI calls are recorded
  as `Effect` values in the order the source performs them.
-/

/-! ## Filesystem trees and tar entries (archiver data model) -/

/-- A relative path, as the list of its `/`-separated segments.  `[]` is the
walk root (rendered `"."` by `filepath.Rel`). -/
abbrev RelPath := List String

/-- A filesystem tree as seen by `os.Stat`/`filepath.Walk`.  `perm` and
`mtime` are the on-disk permission bits and modification time (which the
archiver must ignore); `statSize` is the stat size of a directory (passed to
`info.Size()` by `addDirToTar`); a regular file's stat size equals its byte
length.  `other` is any entry that is neither a regular file nor a directory
(symlink, device, socket, ...), for which `info.Mode() & os.ModeType != 0`. -/
inductive FsNode where
  | file (name : String) (perm mtime : Nat) (content : List Nat)
  | dir (name : String) (perm mtime statSize : Nat) (children : List FsNode)
  | other (name : String)
deriving Repr

/-- The base name of a node (the final segment of its path on disk). -/
def FsNode.name : FsNode → String
  | .file n _ _ _ => n
  | .dir n _ _ _ _ => n
  | .other n => n

/-- Tar header type flag: directory or regular file (`tar.TypeDir` /
`tar.TypeReg`). -/
inductive TypeFlag where
  | dir
  | reg
deriving DecidableEq, Repr

/-- The fields of a `tar.Header` the source sets. -/
structure TarHeader where
  Name : RelPath
  Size : Nat
  Mode : Nat
  ModTime : Nat
  Typeflag : TypeFlag
deriving DecidableEq, Repr

/-- One archive entry: a header plus the file bytes copied after it
(`io.Copy`); empty for directories. -/
structure TarEntry where
  header : TarHeader
  content : List Nat
deriving DecidableEq, Repr

/-- `TarImage.isExcluded`: a relative path is excluded iff it equals one of
the configured exclusion patterns exactly. -/
def isExcluded (excludePaths : List RelPath) (relPath : RelPath) : Bool :=
  excludePaths.any (· = relPath)

/-- `TarImage.addDirToTar` minus its `isExcluded` guard: the source `panic`s
with "Unreachable" when called on an excluded path, and every caller in the
walk has already established the guard, so the embedding keeps the guard at
the call sites.  Mode `448` is the octal literal `0700` of the source;
`ModTime` is the zero `time.Time{}`. -/
def addDirToTar (relPath : RelPath) (statSize : Nat) : TarEntry :=
  { header := { Name := relPath, Size := statSize, Mode := 448, ModTime := 0,
                Typeflag := .dir },
    content := [] }

/-- `TarImage.addFileToTar`: excluded files are silently skipped (no entry,
no error); otherwise one regular-file entry is emitted whose `Size` is the
stat size of the regular file (its byte length) and whose bytes follow.
Mode `384` is the octal literal `0600`; `ModTime` is the zero `time.Time{}`. -/
def addFileToTar (excludePaths : List RelPath) (relPath : RelPath) (content : List Nat) :
    List TarEntry :=
  if isExcluded excludePaths relPath then []
  else [{ header := { Name := relPath, Size := content.length, Mode := 384,
                      ModTime := 0, Typeflag := .reg },
          content := content }]

/-- Errors of the archiver.  `notRegular rel` is the source error
"Expected file '(path)/(rel)' to be a regular file"; `addingFile p e` is the
wrapping "Adding file 'p' to tar: e" applied to errors of a directory walk;
`openFailed` stands for the environment-dependent I/O failure of opening a
non-regular path given directly as an input; `tempFileFailed` is a failure of
`ioutil.TempFile`. -/
inductive ArchiveErr where
  | notRegular (relPath : RelPath)
  | addingFile (inputPath : String) (inner : ArchiveErr)
  | openFailed (inputPath : String)
  | tempFileFailed
deriving DecidableEq, Repr

mutual

/-- The `filepath.Walk` callback of `TarImage.createTarball`, applied to the
node found at relative path `rel` inside a directory input.  Per the Go
documentation, `Walk` visits a directory before its children and children in
lexical order; the `children` list of an `FsNode.dir` is kept in that
enumeration order.  Returning `filepath.SkipDir` for an excluded directory
makes `Walk` skip the whole subtree, modelled by producing no entries and not
recursing. -/
def walkNode (ex : List RelPath) (rel : RelPath) (n : FsNode) :
    Except ArchiveErr (List TarEntry) :=
  match n with
  | .file _ _ _ content => .ok (addFileToTar ex rel content)
  | .other _ => .error (.notRegular rel)
  | .dir _ _ _ statSize children =>
      if isExcluded ex rel then
        .ok []
      else
        match walkChildren ex rel children with
        | .error e => .error e
        | .ok rest => .ok (addDirToTar rel statSize :: rest)

/-- The walk over the children of a directory at relative path `rel`, in
order, aborting at the first error. -/
def walkChildren (ex : List RelPath) (rel : RelPath) (cs : List FsNode) :
    Except ArchiveErr (List TarEntry) :=
  match cs with
  | [] => .ok []
  | c :: cs' =>
      match walkNode ex (rel ++ [c.name]) c with
      | .error e => .error e
      | .ok es =>
          match walkChildren ex rel cs' with
          | .error e => .error e
          | .ok rest => .ok (es ++ rest)

end

/-- `TarImage.createTarball`: each input path is stated; a directory input is
walked (errors wrapped as "Adding file ... to tar"), any other input is added
as a single file under its base name.  An input is modelled as the
filesystem node its path names, the node's `name` being the path's base name
(`filepath.Base`) — the only use `createTarball` makes of the input path
string itself.  Opening a non-regular input directly is environment-dependent
I/O, modelled as a failure. -/
def createTarball (ex : List RelPath) (inputs : List FsNode) :
    Except ArchiveErr (List TarEntry) :=
  match inputs with
  | [] => .ok []
  | t :: ts =>
      let first : Except ArchiveErr (List TarEntry) :=
        match t with
        | .dir _ _ _ _ _ =>
            match walkNode ex [] t with
            | .error e => .error (.addingFile t.name e)
            | .ok es => .ok es
        | .file n _ _ content => .ok (addFileToTar ex [n] content)
        | .other n => .error (.openFailed n)
      match first with
      | .error e => .error e
      | .ok es =>
          match createTarball ex ts with
          | .error e => .error e
          | .ok rest => .ok (es ++ rest)

/-- The result of `TarImage.asFileImage`: the packaged artifact; `bundle`
records which of the two packaging modes (`AsFileBundle` / `AsFileImage`) was
used — the only difference between them. -/
structure FileImage where
  entries : List TarEntry
  bundle : Bool
deriving DecidableEq, Repr

/-- Temporary-file lifecycle events of `asFileImage`. -/
inductive TmpEffect where
  | createTemp
  | removeTemp
deriving DecidableEq, Repr

/-- `TarImage.asFileImage`: create the temporary backing file, build the
tarball into it, and remove the temporary file before propagating any error.
`tmpOk` is the outcome of `ioutil.TempFile`; `NewFileImage` computes digests
over the written bytes and is modelled as the successful construction of the
artifact from the entries. -/
def asFileImage (bundle : Bool) (tmpOk : Bool) (ex : List RelPath)
    (inputs : List FsNode) : Except ArchiveErr FileImage × List TmpEffect :=
  if tmpOk then
    match createTarball ex inputs with
    | .error e => (.error e, [.createTemp, .removeTemp])
    | .ok entries => (.ok { entries := entries, bundle := bundle }, [.createTemp])
  else
    (.error .tempFileFailed, [])

/-! ## Pull command data model -/

/-- A digest-qualified image reference `repository@digest`.  The source
carries these as strings and splits/parses them via `go-containerregistry`;
the embedding keeps the two components the rewrite logic manipulates. -/
structure DigestRef where
  repo : String
  digest : String
deriving DecidableEq, Repr

/-- One entry of the bundle's image lock document (`ImageDesc` with its
embedded `ImageLocation`).  `metadata` is opaque to the rewrite. -/
structure ImageDesc where
  digestRef : DigestRef
  originalTag : String
  name : String
  metadata : String
deriving DecidableEq, Repr

/-- The image lock document (`Spec.Images` is the only field the rewrite
touches). -/
structure ImagesLock where
  images : List ImageDesc
deriving DecidableEq, Repr

/-- A pulled image's manifest: the annotation map (string keys to string
values), modelled as an association list with unique keys as in a Go map. -/
structure Manifest where
  annotations : List (String × String)
deriving DecidableEq, Repr

/-- The key of the bundle marker, `ctlimg.BundleAnnotation`.  Its definition
lives in the `image` package outside the embedded source file; the pull logic
depends only on it being one fixed key, not on its spelling. -/
def bundleAnnKey : String := "dev.carvel.imgpkg.bundle"

/-- The value of the bundle marker in a manifest, if present
(`manifest.Annotations[ctlimg.BundleAnnotation]` presence/value). -/
def annLookup (m : Manifest) : Option String :=
  m.annotations.lookup bundleAnnKey

/-- Errors of `rewriteImageLock`.  `readingLockFile` wraps a failure of
`ReadImageLockFile`; the other two are the programming-invariant failures of
candidate construction and strict re-parsing. -/
inductive RewriteErr where
  | readingLockFile (msg : String)
  | notDigestQualified
  | malformedDigestRef
deriving DecidableEq, Repr

/-- Errors returned by `PullOptions.Run` (message payloads of wrapped
collaborator failures kept as strings). -/
inductive RunErr where
  | onlyOneRefExpected
  | refExpected
  | readLockInputFailed (msg : String)
  | parseReferenceFailed (msg : String)
  | collectingImages (msg : String)
  | noImagesFound
  | gettingManifest (msg : String)
  | expectedBundleFlag
  | expectedImageFlag
  | gettingDigest (msg : String)
  | disallowedOutputDir
  | removingOutputDir
  | creatingOutputDir
  | extractingImage
  | rewritingLock (e : RewriteErr)
deriving DecidableEq, Repr

/-- Observable side effects of a pull, in the order the source performs them.
`notice...` constructors are the `ui.BeginLinef` lines; the rest are
filesystem, network, and registry calls. -/
inductive Effect where
  | readLockInput
  | collectImages
  | getManifest
  | getDigest
  | noticeFoundMultiple
  | noticePulling (repo digest : String)
  | removeAll (p : String)
  | mkdirAll (p : String)
  | extract (p : String)
  | readImageLock
  | noticeLocating
  | checkRef (r : DigestRef)
  | noticeNotFound
  | noticeAllFound
  | writeImageLock (images : List ImageDesc)
deriving DecidableEq, Repr

/-- The pull flags: `--image`, `--bundle`, `--lock`, `--output` (empty string
means the flag was not given, exactly as in the source). -/
structure PullFlags where
  image : String
  bundle : String
  lockPath : String
  outputPath : String
deriving DecidableEq, Repr

/-- An image returned by the resolver, described by the outcomes of the two
network calls the pull makes on it. -/
structure Img where
  manifest : Except String Manifest
  digest : Except String String
deriving Repr

/-- Oracle for the external collaborators: the outcome of each filesystem,
network, and registry call a pull can make.  `readBundleLock` combines
`ioutil.ReadFile` of the `--lock` input and its YAML decode, yielding
`bundleLock.Spec.Image.DigestRef`; `readImageLock` likewise combines
`ReadImageLockFile` of the extracted bundle's lock document. -/
structure World where
  readBundleLock : Except String String
  parse : String → Except String String
  collectImages : Except String (List Img)
  removeAllOk : Bool
  mkdirAllOk : Bool
  extractOk : Bool
  readImageLock : Except String ImagesLock
  registryHas : DigestRef → Bool

/-! ## getRefFromFlags -/

/-- One step of the reference-selection loop of `getRefFromFlags`: Go returns
the "only one" error as soon as a second non-empty source is seen; the fold
carries the error to the same final result. -/
def pickRefStep (acc : Except RunErr String) (s : String) : Except RunErr String :=
  match acc with
  | .error e => .error e
  | .ok ref => if s = "" then .ok ref else if ref ≠ "" then .error .onlyOneRefExpected else .ok s

/-- The pure selection part of `getRefFromFlags`: fold over
`[LockPath, Image, Bundle]`, then reject an empty selection. -/
def pickRef (sources : List String) : Except RunErr String :=
  match sources.foldl pickRefStep (.ok "") with
  | .error e => .error e
  | .ok ref => if ref = "" then .error .refExpected else .ok ref

/-- `PullOptions.getRefFromFlags`: validate mutual exclusion of the three
sources, then — only when the selected source is the lock path — read and
decode the lock file to obtain its digest reference. -/
def getRefFromFlags (o : PullFlags) (w : World) :
    Except RunErr String × List Effect :=
  match pickRef [o.lockPath, o.image, o.bundle] with
  | .error e => (.error e, [])
  | .ok ref =>
      if o.lockPath = "" then (.ok ref, [])
      else
        match w.readBundleLock with
        | .error m => (.error (.readLockInputFailed m), [.readLockInput])
        | .ok digRef => (.ok digRef, [.readLockInput])

/-! ## The bundle/image classifier (inline in `PullOptions.Run`) -/

/-- The classifier of `PullOptions.Run` lines 90–97: with the image flag set,
reject any manifest whose annotation map contains the bundle key (whatever
its value); otherwise (bundle or lock intent) reject any manifest whose
bundle-key value, defaulting to `""` as a Go map read does, is not the
literal `"true"`. -/
def checkIntent (image : String) (m : Manifest) : Except RunErr Unit :=
  if image ≠ "" then
    match annLookup m with
    | some _ => .error .expectedBundleFlag
    | none => .ok ()
  else if (annLookup m).getD "" ≠ "true" then .error .expectedImageFlag
  else .ok ()

/-! ## rewriteImageLock -/

/-- Modelled from the spec: `ImageWithRepository` (defined in the `cmd`
package outside the embedded source file) substitutes the repository
component of a digest reference with the given repository, keeping the digest
unchanged; it fails when the original reference is not digest-qualified,
which in the structured model is an empty digest. -/
def ImageWithRepository (ref : DigestRef) (repo : String) :
    Except RewriteErr DigestRef :=
  if ref.digest = "" then .error .notDigestQualified
  else .ok { repo := repo, digest := ref.digest }

/-- Modelled from the spec: the strict digest parse `regname.NewDigest(url,
StrictValidation)` rejects a malformed candidate (empty repository or digest
in the structured model) and otherwise yields the reference itself. -/
def NewDigestStrict (r : DigestRef) : Except RewriteErr DigestRef :=
  if r.repo = "" ∨ r.digest = "" then .error .malformedDigestRef
  else .ok r

/-- The per-entry loop of `rewriteImageLock`: relocate the entry into the
bundle repository, strictly re-parse, query the registry; on a hit append the
rewritten entry (tag, name, metadata preserved) and continue, on a miss emit
the notice and abort the whole rewrite with success (`.ok none` = no commit).
`acc` is the `newImgDescs` accumulator. -/
def rewriteLoop (bundleRepo : String) (has : DigestRef → Bool)
    (acc : List ImageDesc) (imgs : List ImageDesc) :
    Except RewriteErr (Option (List ImageDesc)) × List Effect :=
  match imgs with
  | [] => (.ok (some acc), [])
  | img :: rest =>
      match ImageWithRepository img.digestRef bundleRepo with
      | .error e => (.error e, [])
      | .ok newURL =>
          match NewDigestStrict newURL with
          | .error e => (.error e, [])
          | .ok r =>
              if has r then
                let next := rewriteLoop bundleRepo has
                  (acc ++ [{ digestRef := newURL, originalTag := img.originalTag,
                             name := img.name, metadata := img.metadata }]) rest
                (next.1, .checkRef r :: next.2)
              else
                (.ok none, [.checkRef r, .noticeNotFound])

/-- `PullOptions.rewriteImageLock`: read the lock document; succeed untouched
when it has no image entries; otherwise run the rewrite loop and, only when
every entry was found, marshal and overwrite the document with the fully
rewritten list.  `bundleRepo` is `ref.Context().Name()`; the YAML marshal of
an in-memory document is the opaque encode half of the codec and does not
fail in the model. -/
def rewriteImageLock (bundleRepo : String) (lockRead : Except String ImagesLock)
    (has : DigestRef → Bool) : Except RewriteErr Unit × List Effect :=
  match lockRead with
  | .error m => (.error (.readingLockFile m), [.readImageLock])
  | .ok lock =>
      if lock.images.length = 0 then (.ok (), [.readImageLock])
      else
        match rewriteLoop bundleRepo has [] lock.images with
        | (.error e, tr) => (.error e, [.readImageLock, .noticeLocating] ++ tr)
        | (.ok none, tr) => (.ok (), [.readImageLock, .noticeLocating] ++ tr)
        | (.ok (some descs), tr) =>
            (.ok (), [.readImageLock, .noticeLocating] ++ tr
                      ++ [.noticeAllFound, .writeImageLock descs])

/-! ## PullOptions.Run -/

/-- Is the output path one of the disallowed root-level destinations? -/
def disallowedOutput (p : String) : Bool :=
  p = "/" || p = "." || p = ".."

/-- The tail of `PullOptions.Run` from the disallowed-destination check
onward: check the output path before any `RemoveAll`/`MkdirAll`, prepare the
destination, extract, and — only with bundle intent — rewrite the lock
document (errors wrapped as "Rewriting image lock file"). -/
def afterDigest (o : PullFlags) (w : World) (ctx : String) :
    Except RunErr Unit × List Effect :=
  if disallowedOutput o.outputPath then (.error .disallowedOutputDir, [])
  else if w.removeAllOk = false then
    (.error .removingOutputDir, [.removeAll o.outputPath])
  else if w.mkdirAllOk = false then
    (.error .creatingOutputDir, [.removeAll o.outputPath, .mkdirAll o.outputPath])
  else if w.extractOk = false then
    (.error .extractingImage,
     [.removeAll o.outputPath, .mkdirAll o.outputPath, .extract o.outputPath])
  else
    let base := [Effect.removeAll o.outputPath, .mkdirAll o.outputPath,
                 .extract o.outputPath]
    if o.bundle ≠ "" then
      let rw := rewriteImageLock ctx w.readImageLock w.registryHas
      (rw.1.mapError .rewritingLock, base ++ rw.2)
    else (.ok (), base)

/-- The part of `PullOptions.Run` acting on the selected image: fetch its
manifest, classify against the caller's intent, fetch its digest, print the
"Pulling image" line, and continue with `afterDigest`.  `ctx` is
`ref.Context().Name()`, the repository of the parsed input reference. -/
def afterImage (o : PullFlags) (w : World) (ctx : String) (img : Img) :
    Except RunErr Unit × List Effect :=
  match img.manifest with
  | .error m => (.error (.gettingManifest m), [.getManifest])
  | .ok mf =>
      match checkIntent o.image mf with
      | .error e => (.error e, [.getManifest])
      | .ok _ =>
          match img.digest with
          | .error m => (.error (.gettingDigest m), [.getManifest, .getDigest])
          | .ok dg =>
              let rest := afterDigest o w ctx
              (rest.1, [.getManifest, .getDigest, .noticePulling ctx dg] ++ rest.2)

/-- The multi-image step of `PullOptions.Run`: no image at all is an error;
more than one image prints the "Found multiple images, extracting first"
notice; the first image of the list is used. -/
def afterCollect (o : PullFlags) (w : World) (ctx : String) (imgs : List Img) :
    Except RunErr Unit × List Effect :=
  match imgs with
  | [] => (.error .noImagesFound, [])
  | img :: rest =>
      let next := afterImage o w ctx img
      (next.1,
       (if 1 < (img :: rest).length then [Effect.noticeFoundMultiple] else [])
         ++ next.2)

/-- `PullOptions.Run`: select the input reference, parse it (a pure parser;
`w.parse` yields `ref.Context().Name()` on success), collect the images it
resolves to, and continue with `afterCollect`. -/
def run (o : PullFlags) (w : World) : Except RunErr Unit × List Effect :=
  match getRefFromFlags o w with
  | (.error e, tr) => (.error e, tr)
  | (.ok inputRef, tr0) =>
      match w.parse inputRef with
      | .error m => (.error (.parseReferenceFailed m), tr0)
      | .ok ctx =>
          match w.collectImages with
          | .error m => (.error (.collectingImages m), tr0 ++ [.collectImages])
          | .ok imgs =>
              let next := afterCollect o w ctx imgs
              (next.1, tr0 ++ [.collectImages] ++ next.2)

/-! ## Helper definitions for the theorems -/

/-- Is the node a directory? -/
def FsNode.isDir : FsNode → Bool
  | .dir _ _ _ _ _ => true
  | _ => false

/-- The candidate relocated reference of a lock entry: the entry's repository
replaced by the bundle repository, the digest unchanged. -/
def relocRef (repo : String) (d : ImageDesc) : DigestRef :=
  { repo := repo, digest := d.digestRef.digest }

/-- A lock entry relocated into the bundle repository with its original tag,
name, and metadata preserved. -/
def relocDesc (repo : String) (d : ImageDesc) : ImageDesc :=
  { digestRef := relocRef repo d, originalTag := d.originalTag,
    name := d.name, metadata := d.metadata }

/-! ## C8: empty lock document -/

/-- C8: on a lock document with zero image entries, `rewriteImageLock`
terminates successfully, makes no registry existence query, and performs no
write — it only reads the document. -/
theorem rewriteImageLock_emptyLock (bundleRepo : String) (has : DigestRef → Bool) :
    rewriteImageLock bundleRepo (.ok { images := [] }) has =
      (.ok (), [.readImageLock]) := rfl

/-! ## C10: bare-file inputs are named and excluded by base name -/

/-- C10: a bare regular-file input is archived under its base name, and is
silently omitted (no error, no entry) exactly when that base name matches an
exclusion pattern. -/
theorem createTarball_bareFile (ex : List RelPath) (n : String)
    (perm mtime : Nat) (content : List Nat) :
    createTarball ex [.file n perm mtime content] =
      .ok (if isExcluded ex [n] then []
           else [{ header := { Name := [n], Size := content.length, Mode := 384,
                               ModTime := 0, Typeflag := .reg },
                   content := content }]) := by
  simp only [createTarball, addFileToTar]
  split <;> simp

/-! ## C2: the classifier -/

/-- C2 counterexample: the claim says only the literal annotation value
`"true"` triggers the image-intent usage-mismatch failure and that no other
annotation values are treated specially; the code rejects an image-intent
pull whenever the bundle annotation key is present at all, so the distinct
value `"false"` is rejected the same way. -/
theorem checkIntent_rejects_nonTrue_value :
    checkIntent "registry.example/app"
        { annotations := [(bundleAnnKey, "false")] } =
      .error .expectedBundleFlag ∧ ("false" : String) ≠ "true" := by
  constructor
  · rfl
  · decide

/-- C2 (amended): with image intent the pull fails with the bundle-flag
usage-mismatch error precisely when the manifest carries the bundle
annotation key with any value (and succeeds when the key is absent); with
bundle intent the pull fails with the image-flag error precisely when the
annotation is absent or its value is not the literal `"true"`. -/
theorem checkIntent_exclusivity (flag : String) (m : Manifest) :
    (flag ≠ "" →
       (annLookup m = none → checkIntent flag m = .ok ()) ∧
       (∀ v, annLookup m = some v →
          checkIntent flag m = .error .expectedBundleFlag)) ∧
    (flag = "" →
       (annLookup m = some "true" → checkIntent flag m = .ok ()) ∧
       (annLookup m = none → checkIntent flag m = .error .expectedImageFlag) ∧
       (∀ v, annLookup m = some v → v ≠ "true" →
          checkIntent flag m = .error .expectedImageFlag)) := by
  constructor
  · intro hf
    constructor
    · intro h; simp [checkIntent, hf, h]
    · intro v h; simp [checkIntent, hf, h]
  · intro hf
    refine ⟨?_, ?_, ?_⟩
    · intro h; simp [checkIntent, hf, h]
    · intro h; simp [checkIntent, hf, h]
    · intro v h hv; simp [checkIntent, hf, h, hv]

/-- Witness for C2 (amended) at concrete inputs: a bundle-intent pull of a
manifest annotated `"true"` succeeds, and an image-intent pull of a manifest
carrying the key with value `"false"` fails asking for the bundle flag. -/
theorem checkIntent_exclusivity_witness :
    checkIntent "" { annotations := [(bundleAnnKey, "true")] } = .ok () ∧
    checkIntent "r.io/app" { annotations := [(bundleAnnKey, "false")] } =
      .error .expectedBundleFlag := by
  constructor
  · exact ((checkIntent_exclusivity "" _).2 rfl).1 rfl
  · exact ((checkIntent_exclusivity "r.io/app" _).1 (by decide)).2 "false" rfl

/-! ## C1: all-or-nothing rewrite -/

/-- One step of the rewrite loop on a registry hit: the existence check is
recorded and the loop continues with the relocated entry appended. -/
theorem rewriteLoop_cons_found (repo : String) (has : DigestRef → Bool)
    (acc : List ImageDesc) (d : ImageDesc) (rest : List ImageDesc)
    (hrepo : repo ≠ "") (hd : d.digestRef.digest ≠ "")
    (hhd : has (relocRef repo d) = true) :
    rewriteLoop repo has acc (d :: rest) =
      ((rewriteLoop repo has (acc ++ [relocDesc repo d]) rest).1,
       .checkRef (relocRef repo d)
         :: (rewriteLoop repo has (acc ++ [relocDesc repo d]) rest).2) := by
  simp [rewriteLoop, ImageWithRepository, NewDigestStrict, relocRef, relocDesc,
    hrepo, hd, hhd] at hhd ⊢

/-- One step of the rewrite loop on a registry miss: the existence check and
the single "not found" notice are recorded and the loop aborts without
touching the remaining entries. -/
theorem rewriteLoop_cons_miss (repo : String) (has : DigestRef → Bool)
    (acc : List ImageDesc) (d : ImageDesc) (rest : List ImageDesc)
    (hrepo : repo ≠ "") (hd : d.digestRef.digest ≠ "")
    (hhd : has (relocRef repo d) = false) :
    rewriteLoop repo has acc (d :: rest) =
      (.ok none, [.checkRef (relocRef repo d), .noticeNotFound]) := by
  simp [rewriteLoop, ImageWithRepository, NewDigestStrict, relocRef,
    hrepo, hd, hhd] at hhd ⊢

/-- When every remaining entry's candidate is present in the registry, the
rewrite loop checks each entry in order and returns the accumulator extended
with all entries relocated (tags, names, metadata preserved). -/
theorem rewriteLoop_allFound (repo : String) (has : DigestRef → Bool)
    (L : List ImageDesc) (hrepo : repo ≠ "")
    (hv : ∀ d ∈ L, d.digestRef.digest ≠ "")
    (hh : ∀ d ∈ L, has (relocRef repo d) = true) :
    ∀ acc, rewriteLoop repo has acc L =
      (.ok (some (acc ++ L.map (relocDesc repo))),
       L.map (fun d => Effect.checkRef (relocRef repo d))) := by
  induction L with
  | nil => intro acc; simp [rewriteLoop]
  | cons d rest ih =>
      intro acc
      have step := rewriteLoop_cons_found repo has acc d rest hrepo
        (hv d (by simp)) (hh d (by simp))
      have ih' := ih (fun x hx => hv x (by simp [hx]))
        (fun x hx => hh x (by simp [hx])) (acc ++ [relocDesc repo d])
      rw [step, ih']
      simp

/-- When every candidate before a miss is present and the current entry's
candidate is absent, the rewrite loop checks exactly the entries up to and
including the miss, emits the single "not found" notice, and returns the
no-commit outcome, never reaching the remaining entries. -/
theorem rewriteLoop_stopsAtMiss (repo : String) (has : DigestRef → Bool)
    (pre post : List ImageDesc) (d : ImageDesc) (hrepo : repo ≠ "")
    (hv : ∀ x ∈ pre ++ d :: post, x.digestRef.digest ≠ "")
    (hpre : ∀ x ∈ pre, has (relocRef repo x) = true)
    (hd : has (relocRef repo d) = false) :
    ∀ acc, rewriteLoop repo has acc (pre ++ d :: post) =
      (.ok none,
       (pre ++ [d]).map (fun x => Effect.checkRef (relocRef repo x))
         ++ [.noticeNotFound]) := by
  induction pre with
  | nil =>
      intro acc
      rw [List.nil_append,
        rewriteLoop_cons_miss repo has acc d post hrepo (hv d (by simp)) hd]
      simp
  | cons x pre' ih =>
      intro acc
      have step := rewriteLoop_cons_found repo has acc x (pre' ++ d :: post)
        hrepo (hv x (by simp)) (hpre x (by simp))
      have ih' := ih (fun y hy => hv y (by simp at hy ⊢; tauto))
        (fun y hy => hpre y (by simp [hy])) (acc ++ [relocDesc repo x])
      rw [List.cons_append, step, ih']
      simp

/-- C1: reference rewrite is all-or-nothing.  First conjunct: if the entry at
position `|pre|` is the first whose candidate relocated reference (repository
replaced by the bundle repository, digest unchanged) is absent, the whole
operation succeeds while performing, after reading the document, exactly the
"Locating" notice, the existence checks of entries `0..|pre|` in order, and
the single "not found" notice — in particular no write occurs (the on-disk
document is untouched), no rewritten entry survives, and no entry after the
miss is checked.  Second conjunct: when every entry of a non-empty document
is found, the document is written with all entries relocated, each with its
original tag, name, and metadata preserved. -/
theorem rewriteImageLock_allOrNothing (repo : String) (has : DigestRef → Bool) :
    (∀ (pre post : List ImageDesc) (d : ImageDesc),
       repo ≠ "" →
       (∀ x ∈ pre ++ d :: post, x.digestRef.digest ≠ "") →
       (∀ x ∈ pre, has (relocRef repo x) = true) →
       has (relocRef repo d) = false →
       rewriteImageLock repo (.ok { images := pre ++ d :: post }) has =
         (.ok (), [.readImageLock, .noticeLocating]
            ++ (pre ++ [d]).map (fun x => Effect.checkRef (relocRef repo x))
            ++ [.noticeNotFound])) ∧
    (∀ (L : List ImageDesc),
       L ≠ [] → repo ≠ "" →
       (∀ x ∈ L, x.digestRef.digest ≠ "") →
       (∀ x ∈ L, has (relocRef repo x) = true) →
       rewriteImageLock repo (.ok { images := L }) has =
         (.ok (), [.readImageLock, .noticeLocating]
            ++ L.map (fun x => Effect.checkRef (relocRef repo x))
            ++ [.noticeAllFound, .writeImageLock (L.map (relocDesc repo))])) := by
  constructor
  · intro pre post d hrepo hv hpre hd
    have h := rewriteLoop_stopsAtMiss repo has pre post d hrepo hv hpre hd []
    simp only [rewriteImageLock]
    rw [if_neg (by simp)]
    rw [h]
    simp
  · intro L hL hrepo hv hh
    have h := rewriteLoop_allFound repo has L hrepo hv hh []
    simp only [rewriteImageLock]
    rw [if_neg (by simp [hL])]
    rw [h]
    simp

/-- Witness for C1 at concrete inputs: a two-entry document whose second
candidate is absent is not written and only checked through the miss, and a
two-entry document whose candidates are both present is written fully
relocated. -/
theorem rewriteImageLock_allOrNothing_witness :
    (rewriteImageLock "bundle.io/repo"
        (.ok { images := [⟨⟨"old.io/a", "sha256:aaa"⟩, "v1", "a", "ma"⟩,
                          ⟨⟨"old.io/b", "sha256:bbb"⟩, "v2", "b", "mb"⟩] })
        (fun r => r.digest = "sha256:aaa") =
      (.ok (), [.readImageLock, .noticeLocating,
                .checkRef ⟨"bundle.io/repo", "sha256:aaa"⟩,
                .checkRef ⟨"bundle.io/repo", "sha256:bbb"⟩,
                .noticeNotFound])) ∧
    (rewriteImageLock "bundle.io/repo"
        (.ok { images := [⟨⟨"old.io/a", "sha256:aaa"⟩, "v1", "a", "ma"⟩,
                          ⟨⟨"old.io/b", "sha256:bbb"⟩, "v2", "b", "mb"⟩] })
        (fun _ => true) =
      (.ok (), [.readImageLock, .noticeLocating,
                .checkRef ⟨"bundle.io/repo", "sha256:aaa"⟩,
                .checkRef ⟨"bundle.io/repo", "sha256:bbb"⟩,
                .noticeAllFound,
                .writeImageLock [⟨⟨"bundle.io/repo", "sha256:aaa"⟩, "v1", "a", "ma"⟩,
                                 ⟨⟨"bundle.io/repo", "sha256:bbb"⟩, "v2", "b", "mb"⟩]])) := by
  constructor
  · have h := (rewriteImageLock_allOrNothing "bundle.io/repo"
        (fun r => r.digest = "sha256:aaa")).1
        [⟨⟨"old.io/a", "sha256:aaa"⟩, "v1", "a", "ma"⟩] []
        ⟨⟨"old.io/b", "sha256:bbb"⟩, "v2", "b", "mb"⟩
        (by decide) (by decide) (by decide) (by decide)
    simpa [relocRef] using h
  · have h := (rewriteImageLock_allOrNothing "bundle.io/repo" (fun _ => true)).2
        [⟨⟨"old.io/a", "sha256:aaa"⟩, "v1", "a", "ma"⟩,
         ⟨⟨"old.io/b", "sha256:bbb"⟩, "v2", "b", "mb"⟩]
        (by decide) (by decide) (by decide) (by decide)
    simpa [relocRef, relocDesc] using h

/-! ## C6: reference-source mutual exclusion -/

/-- How many of the three optional reference sources were supplied. -/
def countSources (o : PullFlags) : Nat :=
  ([o.lockPath, o.image, o.bundle].filter (fun s => s ≠ "")).length

/-- A world whose every collaborator call succeeds trivially; used to
instantiate run-level theorems at concrete inputs. -/
def wTriv : World :=
  { readBundleLock := .ok "lock.io/app@sha256:abc"
    parse := fun r => .ok r
    collectImages := .ok [{ manifest := .ok { annotations := [] },
                            digest := .ok "sha256:abc" }]
    removeAllOk := true
    mkdirAllOk := true
    extractOk := true
    readImageLock := .ok { images := [] }
    registryHas := fun _ => true }

/-- C6: supplying none of the three reference sources, or more than one of
them, fails the pull with the corresponding usage error while performing no
effect at all — no network access and no filesystem access. -/
theorem run_refSourceExclusion (o : PullFlags) (w : World) :
    (countSources o = 0 → run o w = (.error .refExpected, [])) ∧
    (2 ≤ countSources o → run o w = (.error .onlyOneRefExpected, [])) := by
  by_cases hl : o.lockPath = "" <;> by_cases hi : o.image = "" <;>
    by_cases hb : o.bundle = "" <;>
      simp [run, getRefFromFlags, pickRef, pickRefStep, countSources,
        List.filter, hl, hi, hb]

/-- Witness for C6 at concrete inputs: zero sources and two sources. -/
theorem run_refSourceExclusion_witness :
    run { image := "", bundle := "", lockPath := "", outputPath := "/tmp/o" } wTriv =
      (.error .refExpected, []) ∧
    run { image := "a/b", bundle := "c/d", lockPath := "", outputPath := "/tmp/o" } wTriv =
      (.error .onlyOneRefExpected, []) := by
  constructor
  · exact (run_refSourceExclusion _ wTriv).1 (by decide)
  · exact (run_refSourceExclusion _ wTriv).2 (by decide)

/-! ## C9: zero / multiple resolved images -/

/-- C9: when the reference resolves to no image the pull fails with the
"at least one image" error; when it resolves to more than one, the pull's
result is exactly the result of pulling with only the first image (the rest
are ignored and multiplicity itself is no failure), and the "Found multiple
images, extracting first" notice is emitted. -/
theorem run_multiImage :
    (∀ (o : PullFlags) (w : World) (r ctx : String),
       (getRefFromFlags o w).1 = .ok r → w.parse r = .ok ctx →
       w.collectImages = .ok [] → (run o w).1 = .error .noImagesFound) ∧
    (∀ (o : PullFlags) (w : World) (i1 i2 : Img) (rest : List Img),
       w.collectImages = .ok (i1 :: i2 :: rest) →
       (run o w).1 = (run o { w with collectImages := .ok [i1] }).1 ∧
       (∀ (r ctx : String),
          (getRefFromFlags o w).1 = .ok r → w.parse r = .ok ctx →
          Effect.noticeFoundMultiple ∈ (run o w).2)) := by
  constructor
  · intro o w r ctx hr hp hc
    rcases hgr : getRefFromFlags o w with ⟨res, tr⟩
    rw [hgr] at hr; simp at hr; subst hr
    simp [run, hgr, hp, hc, afterCollect]
  · intro o w i1 i2 rest hc
    have hgr' : getRefFromFlags o { w with collectImages := .ok [i1] } =
        getRefFromFlags o w := rfl
    constructor
    · rcases hgr : getRefFromFlags o w with ⟨res, tr⟩
      cases res with
      | error e => simp [run, hgr, hgr'.trans hgr]
      | ok r =>
          cases hp : w.parse r with
          | error m => simp [run, hgr, hgr'.trans hgr, hp]
          | ok ctx =>
              simp [run, hgr, hgr'.trans hgr, hp, hc, afterCollect]
              rfl
    · intro r ctx hr hp
      rcases hgr : getRefFromFlags o w with ⟨res, tr⟩
      rw [hgr] at hr; simp at hr; subst hr
      simp [run, hgr, hp, hc, afterCollect]

/-- Witness for C9 at concrete inputs: an image-intent pull resolving to two
images yields the same result as resolving to the first alone and emits the
multiplicity notice; resolving to none fails. -/
theorem run_multiImage_witness :
    (run { image := "a/b", bundle := "", lockPath := "", outputPath := "/tmp/o" }
        { wTriv with collectImages := .ok [] }).1 = .error .noImagesFound ∧
    ((run { image := "a/b", bundle := "", lockPath := "", outputPath := "/tmp/o" }
        { wTriv with collectImages := .ok [
            { manifest := .ok { annotations := [] }, digest := .ok "sha256:a" },
            { manifest := .ok { annotations := [] }, digest := .ok "sha256:b" }] }).1 =
      (run { image := "a/b", bundle := "", lockPath := "", outputPath := "/tmp/o" }
        { wTriv with collectImages := .ok [
            { manifest := .ok { annotations := [] }, digest := .ok "sha256:a" }] }).1) := by
  constructor
  · exact run_multiImage.1 _ _ "a/b" "a/b" rfl rfl rfl
  · exact (run_multiImage.2 _ _ _ _ _ rfl).1

/-! ## C7: disallowed destination -/

/-- With a disallowed output path, the destination-preparation phase fails
immediately with the usage error, before its `RemoveAll`/`MkdirAll`. -/
theorem afterDigest_disallowed (o : PullFlags) (w : World) (ctx : String)
    (h : disallowedOutput o.outputPath = true) :
    afterDigest o w ctx = (.error .disallowedOutputDir, []) := by
  simp [afterDigest, h]

/-- With a disallowed output path, the per-image phase never succeeds and
never records a `RemoveAll` or `MkdirAll` effect. -/
theorem afterImage_disallowed (o : PullFlags) (w : World) (ctx : String)
    (img : Img) (h : disallowedOutput o.outputPath = true) :
    (afterImage o w ctx img).1 ≠ .ok () ∧
    ∀ p, Effect.removeAll p ∉ (afterImage o w ctx img).2 ∧
         Effect.mkdirAll p ∉ (afterImage o w ctx img).2 := by
  cases hm : img.manifest with
  | error m => simp [afterImage, hm]
  | ok mf =>
      cases hi : checkIntent o.image mf with
      | error e => simp [afterImage, hm, hi]
      | ok u =>
          cases hd : img.digest with
          | error m => simp [afterImage, hm, hi, hd]
          | ok dg =>
              simp [afterImage, hm, hi, hd, afterDigest_disallowed o w ctx h]

/-- With a disallowed output path, the image-selection phase never succeeds
and never records a `RemoveAll` or `MkdirAll` effect. -/
theorem afterCollect_disallowed (o : PullFlags) (w : World) (ctx : String)
    (imgs : List Img) (h : disallowedOutput o.outputPath = true) :
    (afterCollect o w ctx imgs).1 ≠ .ok () ∧
    ∀ p, Effect.removeAll p ∉ (afterCollect o w ctx imgs).2 ∧
         Effect.mkdirAll p ∉ (afterCollect o w ctx imgs).2 := by
  cases imgs with
  | nil => simp [afterCollect]
  | cons img rest =>
      have hai := afterImage_disallowed o w ctx img h
      constructor
      · simpa [afterCollect] using hai.1
      · intro p
        have h2 := hai.2 p
        constructor <;>
          simp [afterCollect, List.mem_append, h2.1, h2.2]

/-- The reference-selection phase performs no destination mutation: its
trace is empty or the single lock-input read. -/
theorem getRefFromFlags_trace (o : PullFlags) (w : World) :
    (getRefFromFlags o w).2 = [] ∨
    (getRefFromFlags o w).2 = [.readLockInput] := by
  unfold getRefFromFlags
  cases hp : pickRef [o.lockPath, o.image, o.bundle] with
  | error e => simp
  | ok r =>
      by_cases hl : o.lockPath = ""
      · simp [hl]
      · cases w.readBundleLock <;> simp [hl]

/-- C7: a pull whose output path is "/", "." or ".." can never succeed and
never deletes or creates the destination — no `RemoveAll` or `MkdirAll`
effect ever occurs (first conjunct, over every world); and when every phase
before the destination check succeeds, the failure surfaced is exactly the
disallowed-output usage error, the trace ending at the "Pulling image"
notice (second conjunct). -/
theorem run_disallowedOutput :
    (∀ (o : PullFlags) (w : World), disallowedOutput o.outputPath = true →
       (run o w).1 ≠ .ok () ∧
       ∀ p, Effect.removeAll p ∉ (run o w).2 ∧
            Effect.mkdirAll p ∉ (run o w).2) ∧
    (∀ (o : PullFlags) (w : World) (r ctx dg : String) (img : Img)
       (mf : Manifest) (tr0 : List Effect),
       disallowedOutput o.outputPath = true →
       getRefFromFlags o w = (.ok r, tr0) →
       w.parse r = .ok ctx →
       w.collectImages = .ok [img] →
       img.manifest = .ok mf →
       checkIntent o.image mf = .ok () →
       img.digest = .ok dg →
       run o w = (.error .disallowedOutputDir,
                  tr0 ++ [.collectImages, .getManifest, .getDigest,
                          .noticePulling ctx dg])) := by
  constructor
  · intro o w h
    rcases hgr : getRefFromFlags o w with ⟨res, tr0⟩
    have htr0 : tr0 = [] ∨ tr0 = [.readLockInput] := by
      have ht := getRefFromFlags_trace o w
      rw [hgr] at ht
      exact ht
    have htr0' : ∀ p, Effect.removeAll p ∉ tr0 ∧ Effect.mkdirAll p ∉ tr0 := by
      intro p
      rcases htr0 with h0 | h0 <;> subst h0 <;> simp
    cases res with
    | error e =>
        refine ⟨by simp [run, hgr], ?_⟩
        intro p
        simp [run, hgr, (htr0' p).1, (htr0' p).2]
    | ok r =>
        cases hp : w.parse r with
        | error m =>
            refine ⟨by simp [run, hgr, hp], ?_⟩
            intro p
            simp [run, hgr, hp, (htr0' p).1, (htr0' p).2]
        | ok ctx =>
            cases hc : w.collectImages with
            | error m =>
                refine ⟨by simp [run, hgr, hp, hc], ?_⟩
                intro p
                simp [run, hgr, hp, hc, List.mem_append,
                  (htr0' p).1, (htr0' p).2]
            | ok imgs =>
                have hac := afterCollect_disallowed o w ctx imgs h
                refine ⟨by simp [run, hgr, hp, hc]; exact hac.1, ?_⟩
                intro p
                simp [run, hgr, hp, hc, List.mem_append,
                  (htr0' p).1, (htr0' p).2, (hac.2 p).1, (hac.2 p).2]
  · intro o w r ctx dg img mf tr0 h hgr hp hc hm hi hd
    simp [run, hgr, hp, hc, afterCollect, afterImage, hm, hi, hd,
      afterDigest_disallowed o w ctx h]

/-- Witness for C7 at a concrete input: output path "." with an otherwise
fully succeeding world. -/
theorem run_disallowedOutput_witness :
    run { image := "a/b", bundle := "", lockPath := "", outputPath := "." } wTriv =
      (.error .disallowedOutputDir,
       [.collectImages, .getManifest, .getDigest,
        .noticePulling "a/b" "sha256:abc"]) ∧
    (run { image := "a/b", bundle := "", lockPath := "", outputPath := "." }
        wTriv).1 ≠ .ok () := by
  constructor
  · exact run_disallowedOutput.2
      { image := "a/b", bundle := "", lockPath := "", outputPath := "." }
      wTriv "a/b" "a/b" "sha256:abc"
      { manifest := .ok { annotations := [] }, digest := .ok "sha256:abc" }
      { annotations := [] } [] rfl rfl rfl rfl rfl rfl rfl
  · exact (run_disallowedOutput.1
      { image := "a/b", bundle := "", lockPath := "", outputPath := "." }
      wTriv rfl).1

/-! ## C3: excluded directories prune their whole subtree -/

/-- `isExcluded` decides membership of the relative path in the pattern
list. -/
theorem isExcluded_iff (ex : List RelPath) (r : RelPath) :
    isExcluded ex r = true ↔ r ∈ ex := by
  simp only [isExcluded, List.any_eq_true, decide_eq_true_eq]
  constructor
  · rintro ⟨x, hx, rfl⟩; exact hx
  · intro h; exact ⟨r, h, rfl⟩

/-- A walk position is safe when no strict prefix of it (no ancestor
directory the walk descended through) is an exclusion pattern. -/
def SafeRel (ex : List RelPath) (rel : RelPath) : Prop :=
  ∀ q, q <+: rel → q ≠ rel → q ∉ ex

/-- The children of a directory node are smaller than the node. -/
theorem sizeOf_children_lt (nm : String) (p m s : Nat) (cs : List FsNode) :
    sizeOf cs < sizeOf (FsNode.dir nm p m s cs) := by
  simp only [FsNode.dir.sizeOf_spec]
  omega

/-- Entries produced from a safe walk position have no excluded pattern as a
prefix of their name, by strong induction on the size of the walked node
(resp. child list). -/
theorem walk_prune_aux : ∀ (k : Nat),
    (∀ (n : FsNode) (ex : List RelPath) (rel : RelPath) (out : List TarEntry)
       (p : RelPath), sizeOf n ≤ k → SafeRel ex rel →
       walkNode ex rel n = .ok out → p ∈ ex →
       ∀ e ∈ out, ¬ p <+: e.header.Name) ∧
    (∀ (cs : List FsNode) (ex : List RelPath) (rel : RelPath)
       (out : List TarEntry) (p : RelPath), sizeOf cs ≤ k → SafeRel ex rel →
       isExcluded ex rel = false → walkChildren ex rel cs = .ok out → p ∈ ex →
       ∀ e ∈ out, ¬ p <+: e.header.Name) := by
  intro k
  induction k with
  | zero =>
      constructor
      · intro n _ _ _ _ hs
        exact absurd hs (by cases n <;> simp)
      · intro cs _ _ _ _ hs
        exact absurd hs (by cases cs <;> simp)
  | succ k ih =>
      constructor
      · intro n ex rel out p hs hsafe hw hp e he
        cases n with
        | file nm pm mt content =>
            rw [walkNode] at hw
            replace hw : addFileToTar ex rel content = out := by simpa using hw
            rw [← hw] at he
            unfold addFileToTar at he
            by_cases hex : isExcluded ex rel = true
            · simp [hex] at he
            · simp [hex] at he
              rw [he]
              intro hpre
              by_cases hpr : p = rel
              · subst hpr
                exact hex ((isExcluded_iff ex p).mpr hp)
              · exact hsafe p hpre hpr hp
        | other nm =>
            rw [walkNode] at hw
            simp at hw
        | dir nm pm mt sz cs =>
            rw [walkNode] at hw
            by_cases hex : isExcluded ex rel = true
            · rw [if_pos hex] at hw
              replace hw : ([] : List TarEntry) = out := by simpa using hw
              rw [← hw] at he
              simp at he
            · rw [if_neg hex] at hw
              cases hwc : walkChildren ex rel cs with
              | error e1 => rw [hwc] at hw; simp at hw
              | ok rest =>
                  rw [hwc] at hw
                  replace hw : addDirToTar rel sz :: rest = out := by simpa using hw
                  rw [← hw] at he
                  rcases List.mem_cons.mp he with hm | hm
                  · rw [hm]
                    unfold addDirToTar
                    intro hpre
                    by_cases hpr : p = rel
                    · subst hpr
                      exact hex ((isExcluded_iff ex p).mpr hp)
                    · exact hsafe p hpre hpr hp
                  · have hsz : sizeOf cs ≤ k := by
                      have := sizeOf_children_lt nm pm mt sz cs
                      omega
                    exact ih.2 cs ex rel rest p hsz hsafe
                      (by simpa using hex) hwc hp e hm
      · intro cs ex rel out p hs hsafe hex hw hp e he
        cases cs with
        | nil =>
            rw [walkChildren] at hw
            replace hw : ([] : List TarEntry) = out := by simpa using hw
            rw [← hw] at he
            simp at he
        | cons c cs' =>
            rw [walkChildren] at hw
            cases hwn : walkNode ex (rel ++ [c.name]) c with
            | error e1 => rw [hwn] at hw; simp at hw
            | ok es =>
                rw [hwn] at hw
                cases hwc : walkChildren ex rel cs' with
                | error e1 => rw [hwc] at hw; simp at hw
                | ok rest =>
                    rw [hwc] at hw
                    replace hw : es ++ rest = out := by simpa using hw
                    rw [← hw] at he
                    have hrel : rel ∉ ex := by
                      intro hmem
                      rw [← isExcluded_iff ex rel] at hmem
                      exact absurd hmem (by simp [hex])
                    rcases List.mem_append.mp he with hm | hm
                    · have hsafe' : SafeRel ex (rel ++ [c.name]) := by
                        intro q hq hne
                        rcases List.prefix_concat_iff.mp hq with hq' | hq'
                        · exact absurd hq' hne
                        · by_cases hqr : q = rel
                          · rw [hqr]; exact hrel
                          · exact hsafe q hq' hqr
                      have hsz : sizeOf c ≤ k := by
                        have h1 : sizeOf c < sizeOf (c :: cs') := by
                          simp
                          omega
                        omega
                      exact ih.1 c ex (rel ++ [c.name]) es p hsz hsafe' hwn hp e hm
                    · have hsz : sizeOf cs' ≤ k := by
                        have h1 : sizeOf cs' < sizeOf (c :: cs') := by
                          simp
                        omega
                      exact ih.2 cs' ex rel rest p hsz hsafe hex hwc hp e hm

/-- C3: exclusion subtree pruning.  First conjunct: archiving a directory
tree, no entry of the produced stream has any exclusion pattern as a prefix
of its name — in particular a directory whose relative path matches a
pattern contributes neither its own entry nor any descendant entry, even
when a descendant matches no pattern itself.  Second conjunct: the walker
short-circuits — a directory whose relative path is excluded produces no
entries and no errors regardless of its subtree, i.e. descent never
happens rather than being filtered afterwards. -/
theorem createTarball_prunesExcluded :
    (∀ (ex : List RelPath) (t : FsNode) (p : RelPath) (out : List TarEntry),
       t.isDir = true → p ∈ ex → createTarball ex [t] = .ok out →
       ∀ e ∈ out, ¬ p <+: e.header.Name) ∧
    (∀ (ex : List RelPath) (rel : RelPath) (nm : String) (pm mt sz : Nat)
       (cs : List FsNode), isExcluded ex rel = true →
       walkNode ex rel (.dir nm pm mt sz cs) = .ok []) := by
  constructor
  · intro ex t p out hdir hp hct e he
    cases t with
    | file nm pm mt content => simp [FsNode.isDir] at hdir
    | other nm => simp [FsNode.isDir] at hdir
    | dir nm pm mt sz cs =>
        simp only [createTarball] at hct
        cases hw : walkNode ex [] (.dir nm pm mt sz cs) with
        | error e1 => rw [hw] at hct; simp at hct
        | ok es =>
            rw [hw] at hct
            replace hct : es = out := by simpa [createTarball] using hct
            rw [← hct] at he
            have hsafe : SafeRel ex [] := by
              intro q hq hne
              exact absurd (List.prefix_nil.mp hq) hne
            exact (walk_prune_aux (sizeOf (FsNode.dir nm pm mt sz cs))).1
              _ ex [] es p le_rfl hsafe hw hp e he
  · intro ex rel nm pm mt sz cs hex
    rw [walkNode, if_pos hex]

/-- Witness for C3 at a concrete input: excluding `sub` prunes the excluded
directory and its non-matching descendant file, and short-circuits a subtree
that would otherwise error. -/
theorem createTarball_prunesExcluded_witness :
    (∀ e ∈ [addDirToTar [] 4096],
       ¬ ["sub"] <+: e.header.Name) ∧
    walkNode [["sub"]] ["sub"] (.dir "sub" 0 0 12 [.other "dev"]) = .ok [] := by
  constructor
  · intro e he
    refine createTarball_prunesExcluded.1 [["sub"]]
      (.dir "r" 7 9 4096 [.dir "sub" 1 2 12 [.file "keep.txt" 3 4 [5]]])
      ["sub"] [addDirToTar [] 4096] rfl (by simp) ?_ e he
    simp [createTarball, walkNode, walkChildren, isExcluded, FsNode.name]
  · exact createTarball_prunesExcluded.2 [["sub"]] ["sub"] "sub" 0 0 12
      [.other "dev"] (by simp [isExcluded])

/-! ## C4: deterministic metadata -/

mutual

/-- Erase the on-disk metadata the archiver must ignore — permission bits
and modification times — keeping the logical tree: names, structure and
child order, file contents, and directory stat sizes.  Two trees are "the
same logical tree" exactly when their erasures coincide. -/
def eraseMeta : FsNode → FsNode
  | .file n _ _ c => .file n 0 0 c
  | .dir n _ _ sz cs => .dir n 0 0 sz (eraseMetaList cs)
  | .other n => .other n

/-- `eraseMeta` applied to each child in order. -/
def eraseMetaList : List FsNode → List FsNode
  | [] => []
  | c :: cs => eraseMeta c :: eraseMetaList cs

end

/-- Erasing metadata does not change a node's name. -/
theorem eraseMeta_name (n : FsNode) : (eraseMeta n).name = n.name := by
  cases n <;> rw [eraseMeta] <;> rfl

/-- The walk ignores permission bits and modification times: walking the
metadata-erased tree produces the identical outcome, by strong induction on
size. -/
theorem walk_eraseMeta : ∀ (k : Nat),
    (∀ (n : FsNode) (ex : List RelPath) (rel : RelPath), sizeOf n ≤ k →
       walkNode ex rel (eraseMeta n) = walkNode ex rel n) ∧
    (∀ (cs : List FsNode) (ex : List RelPath) (rel : RelPath), sizeOf cs ≤ k →
       walkChildren ex rel (eraseMetaList cs) = walkChildren ex rel cs) := by
  intro k
  induction k with
  | zero =>
      constructor
      · intro n _ _ hs
        exact absurd hs (by cases n <;> simp)
      · intro cs _ _ hs
        exact absurd hs (by cases cs <;> simp)
  | succ k ih =>
      constructor
      · intro n ex rel hs
        cases n with
        | file nm pm mt content =>
            rw [eraseMeta]
            simp only [walkNode]
        | other nm =>
            rw [eraseMeta]
        | dir nm pm mt sz cs =>
            rw [eraseMeta]
            simp only [walkNode]
            have hsz : sizeOf cs ≤ k := by
              have := sizeOf_children_lt nm pm mt sz cs
              omega
            rw [ih.2 cs ex rel hsz]
      · intro cs ex rel hs
        cases cs with
        | nil => rw [eraseMetaList]
        | cons c cs' =>
            rw [eraseMetaList]
            simp only [walkChildren]
            have hszc : sizeOf c ≤ k := by
              have h1 : sizeOf c < sizeOf (c :: cs') := by
                simp
                omega
              omega
            have hszl : sizeOf cs' ≤ k := by
              have h1 : sizeOf cs' < sizeOf (c :: cs') := by simp
              omega
            rw [eraseMeta_name, ih.1 c ex (rel ++ [c.name]) hszc,
              ih.2 cs' ex rel hszl]

/-- Archiving the metadata-erased inputs produces the identical outcome. -/
theorem createTarball_eraseMeta (ex : List RelPath) :
    ∀ inputs, createTarball ex (inputs.map eraseMeta) = createTarball ex inputs := by
  intro inputs
  induction inputs with
  | nil => rfl
  | cons t ts ih =>
      cases t with
      | file nm pm mt content =>
          rw [List.map_cons, eraseMeta]
          simp only [createTarball]
          rw [ih]
      | other nm =>
          rw [List.map_cons, eraseMeta]
          simp only [createTarball]
      | dir nm pm mt sz cs =>
          have hw := (walk_eraseMeta (sizeOf (FsNode.dir nm pm mt sz cs))).1
            (.dir nm pm mt sz cs) ex [] le_rfl
          rw [List.map_cons, eraseMeta]
          rw [eraseMeta] at hw
          simp only [createTarball, FsNode.name]
          rw [ih, hw]

/-- Every entry the walk emits has zero modification time and the fixed
per-kind mode: `0700` (448) for directory entries, `0600` (384) for
regular-file entries. -/
theorem walk_metadata : ∀ (k : Nat),
    (∀ (n : FsNode) (ex : List RelPath) (rel : RelPath) (out : List TarEntry),
       sizeOf n ≤ k → walkNode ex rel n = .ok out → ∀ e ∈ out,
       e.header.ModTime = 0 ∧ (e.header.Typeflag = .dir → e.header.Mode = 448) ∧
       (e.header.Typeflag = .reg → e.header.Mode = 384)) ∧
    (∀ (cs : List FsNode) (ex : List RelPath) (rel : RelPath)
       (out : List TarEntry), sizeOf cs ≤ k → walkChildren ex rel cs = .ok out →
       ∀ e ∈ out,
       e.header.ModTime = 0 ∧ (e.header.Typeflag = .dir → e.header.Mode = 448) ∧
       (e.header.Typeflag = .reg → e.header.Mode = 384)) := by
  intro k
  induction k with
  | zero =>
      constructor
      · intro n _ _ _ hs
        exact absurd hs (by cases n <;> simp)
      · intro cs _ _ _ hs
        exact absurd hs (by cases cs <;> simp)
  | succ k ih =>
      constructor
      · intro n ex rel out hs hw e he
        cases n with
        | file nm pm mt content =>
            rw [walkNode] at hw
            replace hw : addFileToTar ex rel content = out := by simpa using hw
            rw [← hw] at he
            unfold addFileToTar at he
            by_cases hex : isExcluded ex rel = true
            · simp [hex] at he
            · simp [hex] at he
              rw [he]
              simp
        | other nm => rw [walkNode] at hw; simp at hw
        | dir nm pm mt sz cs =>
            rw [walkNode] at hw
            by_cases hex : isExcluded ex rel = true
            · rw [if_pos hex] at hw
              replace hw : ([] : List TarEntry) = out := by simpa using hw
              rw [← hw] at he
              simp at he
            · rw [if_neg hex] at hw
              cases hwc : walkChildren ex rel cs with
              | error e1 => rw [hwc] at hw; simp at hw
              | ok rest =>
                  rw [hwc] at hw
                  replace hw : addDirToTar rel sz :: rest = out := by simpa using hw
                  rw [← hw] at he
                  rcases List.mem_cons.mp he with hm | hm
                  · rw [hm]
                    unfold addDirToTar
                    simp
                  · have hsz : sizeOf cs ≤ k := by
                      have := sizeOf_children_lt nm pm mt sz cs
                      omega
                    exact ih.2 cs ex rel rest hsz hwc e hm
      · intro cs ex rel out hs hw e he
        cases cs with
        | nil =>
            rw [walkChildren] at hw
            replace hw : ([] : List TarEntry) = out := by simpa using hw
            rw [← hw] at he
            simp at he
        | cons c cs' =>
            rw [walkChildren] at hw
            cases hwn : walkNode ex (rel ++ [c.name]) c with
            | error e1 => rw [hwn] at hw; simp at hw
            | ok es =>
                rw [hwn] at hw
                cases hwc : walkChildren ex rel cs' with
                | error e1 => rw [hwc] at hw; simp at hw
                | ok rest =>
                    rw [hwc] at hw
                    replace hw : es ++ rest = out := by simpa using hw
                    rw [← hw] at he
                    have hszc : sizeOf c ≤ k := by
                      have h1 : sizeOf c < sizeOf (c :: cs') := by
                        simp
                        omega
                      omega
                    have hszl : sizeOf cs' ≤ k := by
                      have h1 : sizeOf cs' < sizeOf (c :: cs') := by simp
                      omega
                    rcases List.mem_append.mp he with hm | hm
                    · exact ih.1 c ex (rel ++ [c.name]) es hszc hwn e hm
                    · exact ih.2 cs' ex rel rest hszl hwc e hm

/-- C4: deterministic metadata.  First conjunct: every entry of a produced
archive has zero modification time, and mode fixed to the single per-kind
constant — 448 (0700) when its type flag is the directory flag, 384 (0600)
when it is the regular-file flag.  Second conjunct: the produced stream is a
function of the logical tree alone — archiving two input lists that agree
after erasing on-disk permissions and modification times yields identical
archives (same entries, same order), however those ignored attributes
differ. -/
theorem createTarball_deterministicMetadata :
    (∀ (ex : List RelPath) (inputs : List FsNode) (out : List TarEntry),
       createTarball ex inputs = .ok out → ∀ e ∈ out,
       e.header.ModTime = 0 ∧
       (e.header.Typeflag = .dir → e.header.Mode = 448) ∧
       (e.header.Typeflag = .reg → e.header.Mode = 384)) ∧
    (∀ (ex : List RelPath) (inputs1 inputs2 : List FsNode),
       inputs1.map eraseMeta = inputs2.map eraseMeta →
       createTarball ex inputs1 = createTarball ex inputs2) := by
  constructor
  · intro ex inputs
    induction inputs with
    | nil =>
        intro out hct e he
        replace hct : ([] : List TarEntry) = out := by
          simpa [createTarball] using hct
        rw [← hct] at he
        simp at he
    | cons t ts ih =>
        intro out hct e he
        cases t with
        | file nm pm mt content =>
            simp only [createTarball] at hct
            cases hcts : createTarball ex ts with
            | error e1 => rw [hcts] at hct; simp at hct
            | ok rest =>
                rw [hcts] at hct
                replace hct : addFileToTar ex [nm] content ++ rest = out := by
                  simpa using hct
                rw [← hct] at he
                rcases List.mem_append.mp he with hm | hm
                · unfold addFileToTar at hm
                  by_cases hex : isExcluded ex [nm] = true
                  · simp [hex] at hm
                  · simp [hex] at hm
                    rw [hm]
                    simp
                · exact ih rest hcts e hm
        | other nm =>
            simp only [createTarball] at hct
            simp at hct
        | dir nm pm mt sz cs =>
            simp only [createTarball] at hct
            cases hwn : walkNode ex [] (.dir nm pm mt sz cs) with
            | error e1 => rw [hwn] at hct; simp at hct
            | ok es =>
                rw [hwn] at hct
                cases hcts : createTarball ex ts with
                | error e1 => rw [hcts] at hct; simp at hct
                | ok rest =>
                    rw [hcts] at hct
                    replace hct : es ++ rest = out := by simpa using hct
                    rw [← hct] at he
                    rcases List.mem_append.mp he with hm | hm
                    · exact (walk_metadata
                          (sizeOf (FsNode.dir nm pm mt sz cs))).1
                        _ ex [] es le_rfl hwn e hm
                    · exact ih rest hcts e hm
  · intro ex inputs1 inputs2 hmap
    rw [← createTarball_eraseMeta ex inputs1, hmap,
      createTarball_eraseMeta ex inputs2]

/-- Witness for C4 at concrete inputs: two trees identical up to on-disk
permissions and timestamps archive identically, and the concrete archive's
entries carry the fixed metadata. -/
theorem createTarball_deterministicMetadata_witness :
    createTarball [] [.dir "r" 7 99 4096 [.file "a" 6 5 [1, 2]]] =
      createTarball [] [.dir "r" 0 3 4096 [.file "a" 444 123 [1, 2]]] ∧
    (∀ e ∈ [addDirToTar [] 4096,
            ({ header := { Name := ["a"], Size := 2, Mode := 384, ModTime := 0,
                           Typeflag := .reg },
               content := [1, 2] } : TarEntry)],
       e.header.ModTime = 0 ∧
       (e.header.Typeflag = .dir → e.header.Mode = 448) ∧
       (e.header.Typeflag = .reg → e.header.Mode = 384)) := by
  constructor
  · exact createTarball_deterministicMetadata.2 []
      [.dir "r" 7 99 4096 [.file "a" 6 5 [1, 2]]]
      [.dir "r" 0 3 4096 [.file "a" 444 123 [1, 2]]]
      (by simp [eraseMeta, eraseMetaList])
  · intro e he
    refine createTarball_deterministicMetadata.1 []
      [.dir "r" 7 99 4096 [.file "a" 6 5 [1, 2]]] _ ?_ e he
    simp [createTarball, walkNode, walkChildren, addFileToTar, isExcluded,
      FsNode.name]

/-! ## C5: non-regular entries abort the walk -/

/-- The walk actually encounters a non-regular entry below the given
position: either the node itself is non-regular, or it is a directory that
is not pruned by an exclusion pattern and some child leads to one.  (A
subtree pruned by C3's short-circuit is never encountered; note that a
non-regular entry's own exclusion does not save it — the walk checks the
mode before consulting the exclusion list.) -/
inductive ReachesOther (ex : List RelPath) : RelPath → FsNode → Prop where
  | here (rel : RelPath) (nm : String) : ReachesOther ex rel (.other nm)
  | child (rel : RelPath) (nm : String) (perm mtime statSize : Nat)
      (cs : List FsNode) (c : FsNode) (hc : c ∈ cs)
      (hex : isExcluded ex rel = false)
      (h : ReachesOther ex (rel ++ [c.name]) c) :
      ReachesOther ex rel (.dir nm perm mtime statSize cs)

/-- Every error the walk can produce is the "expected a regular file" error
naming some walked path, by strong induction on size. -/
theorem walk_errors_shape : ∀ (k : Nat),
    (∀ (n : FsNode) (ex : List RelPath) (rel : RelPath) (e : ArchiveErr),
       sizeOf n ≤ k → walkNode ex rel n = .error e →
       ∃ q, e = .notRegular q) ∧
    (∀ (cs : List FsNode) (ex : List RelPath) (rel : RelPath) (e : ArchiveErr),
       sizeOf cs ≤ k → walkChildren ex rel cs = .error e →
       ∃ q, e = .notRegular q) := by
  intro k
  induction k with
  | zero =>
      constructor
      · intro n _ _ _ hs
        exact absurd hs (by cases n <;> simp)
      · intro cs _ _ _ hs
        exact absurd hs (by cases cs <;> simp)
  | succ k ih =>
      constructor
      · intro n ex rel e hs hw
        cases n with
        | file nm pm mt content => rw [walkNode] at hw; simp at hw
        | other nm =>
            rw [walkNode] at hw
            replace hw : ArchiveErr.notRegular rel = e := by simpa using hw
            exact ⟨rel, hw.symm⟩
        | dir nm pm mt sz cs =>
            rw [walkNode] at hw
            by_cases hex : isExcluded ex rel = true
            · rw [if_pos hex] at hw; simp at hw
            · rw [if_neg hex] at hw
              cases hwc : walkChildren ex rel cs with
              | error e1 =>
                  rw [hwc] at hw
                  replace hw : e1 = e := by simpa using hw
                  have hsz : sizeOf cs ≤ k := by
                    have := sizeOf_children_lt nm pm mt sz cs
                    omega
                  rw [← hw]
                  exact ih.2 cs ex rel e1 hsz hwc
              | ok rest => rw [hwc] at hw; simp at hw
      · intro cs ex rel e hs hw
        cases cs with
        | nil => rw [walkChildren] at hw; simp at hw
        | cons c cs' =>
            rw [walkChildren] at hw
            have hszc : sizeOf c ≤ k := by
              have h1 : sizeOf c < sizeOf (c :: cs') := by
                simp
                omega
              omega
            have hszl : sizeOf cs' ≤ k := by
              have h1 : sizeOf cs' < sizeOf (c :: cs') := by simp
              omega
            cases hwn : walkNode ex (rel ++ [c.name]) c with
            | error e1 =>
                rw [hwn] at hw
                replace hw : e1 = e := by simpa using hw
                rw [← hw]
                exact ih.1 c ex (rel ++ [c.name]) e1 hszc hwn
            | ok es =>
                rw [hwn] at hw
                cases hwc : walkChildren ex rel cs' with
                | error e1 =>
                    rw [hwc] at hw
                    replace hw : e1 = e := by simpa using hw
                    rw [← hw]
                    exact ih.2 cs' ex rel e1 hszl hwc
                | ok rest => rw [hwc] at hw; simp at hw

/-- A child list containing a node whose walk fails makes the whole
children-walk fail with an "expected a regular file" error. -/
theorem walkChildren_error_of_mem (ex : List RelPath) (rel : RelPath)
    (c : FsNode) (q : RelPath) :
    ∀ (cs : List FsNode), c ∈ cs →
      walkNode ex (rel ++ [c.name]) c = .error (.notRegular q) →
      ∃ q', walkChildren ex rel cs = .error (.notRegular q') := by
  intro cs
  induction cs with
  | nil => intro hm; simp at hm
  | cons d cs' ih =>
      intro hm hwn
      rcases List.mem_cons.mp hm with hm1 | hm1
      · subst hm1
        refine ⟨q, ?_⟩
        rw [walkChildren, hwn]
      · cases hwd : walkNode ex (rel ++ [d.name]) d with
        | error e1 =>
            obtain ⟨q1, hq1⟩ := (walk_errors_shape (sizeOf d)).1 d ex
              (rel ++ [d.name]) e1 le_rfl hwd
            refine ⟨q1, ?_⟩
            rw [walkChildren, hwd, hq1]
        | ok es =>
            obtain ⟨q', hq'⟩ := ih hm1 hwn
            refine ⟨q', ?_⟩
            rw [walkChildren, hwd, hq']

/-- A walk that encounters a non-regular entry fails with the "expected a
regular file" error naming a walked path. -/
theorem reachesOther_errors (ex : List RelPath) :
    ∀ (rel : RelPath) (n : FsNode), ReachesOther ex rel n →
      ∃ q, walkNode ex rel n = .error (.notRegular q) := by
  intro rel n h
  induction h with
  | here rel nm => exact ⟨rel, by rw [walkNode]⟩
  | child rel nm perm mtime statSize cs c hc hex h ih =>
      obtain ⟨q, hq⟩ := ih
      obtain ⟨q', hq'⟩ := walkChildren_error_of_mem ex rel c q cs hc hq
      refine ⟨q', ?_⟩
      rw [walkNode, if_neg (by simp [hex]), hq']

/-- C5: a directory-tree input in which the walk encounters an entry that is
neither a regular file nor a directory makes archival fail with the
"expected a regular file" error naming a walked path (wrapped in the
"Adding file ... to tar" error of the input), the walk aborting; and
`asFileImage` produces no artifact — the temporary backing file is removed
before the error propagates. -/
theorem createTarball_rejectsNonRegular (ex : List RelPath) (t : FsNode)
    (b : Bool) (hdir : t.isDir = true) (h : ReachesOther ex [] t) :
    ∃ q, createTarball ex [t] = .error (.addingFile t.name (.notRegular q)) ∧
      asFileImage b true ex [t] =
        (.error (.addingFile t.name (.notRegular q)),
         [.createTemp, .removeTemp]) := by
  obtain ⟨q, hq⟩ := reachesOther_errors ex [] t h
  refine ⟨q, ?_, ?_⟩
  · cases t with
    | file nm pm mt content => simp [FsNode.isDir] at hdir
    | other nm => simp [FsNode.isDir] at hdir
    | dir nm pm mt sz cs =>
        simp only [createTarball, FsNode.name]
        rw [hq]
  · unfold asFileImage
    cases t with
    | file nm pm mt content => simp [FsNode.isDir] at hdir
    | other nm => simp [FsNode.isDir] at hdir
    | dir nm pm mt sz cs =>
        have hct : createTarball ex [FsNode.dir nm pm mt sz cs] =
            .error (.addingFile nm (.notRegular q)) := by
          simp only [createTarball, FsNode.name]
          rw [hq]
        rw [if_pos rfl, hct]
        rfl

/-- Witness for C5 at a concrete input: a tree with a symlink-like entry
fails archival naming it and yields no artifact. -/
theorem createTarball_rejectsNonRegular_witness :
    ∃ q, createTarball [] [.dir "root" 0 0 4096 [.other "link"]] =
        .error (.addingFile "root" (.notRegular q)) ∧
      asFileImage true true [] [.dir "root" 0 0 4096 [.other "link"]] =
        (.error (.addingFile "root" (.notRegular q)),
         [.createTemp, .removeTemp]) := by
  exact createTarball_rejectsNonRegular [] (.dir "root" 0 0 4096 [.other "link"])
    true rfl
    (.child [] "root" 0 0 4096 [.other "link"] (.other "link")
      (List.mem_singleton.mpr rfl) rfl (.here ["link"] "link"))
